import Mathlib

set_option maxRecDepth 16384

/-!
Verification of the GitHub release dashboard's ingestion-and-aggregation
pipeline.

The development shallowly embeds two source files:

* `src/server/src/scheduler/githubReleaseScheduler.ts` — paginated fetch of
  releases per repository (`fetchReleases`), normalization into flat
  `ReleaseData` records, and CSV persistence (`updateCSV`);
* `src/server/src/routes/dataRoutes.ts` — the `/api/data` query route:
  CSV load, date/repository filtering, and the four aggregate views
  (`processMonthlyData`, `processWeekdayData`, `processReleaseTypeData`,
  `processStatistics`).

External collaborators are modelled explicitly:

* the JavaScript `Date` constructor is a parameter `JsDateParser`
  (`String → Option JsDateParts`); an unparsable date is `none`, mirroring an
  "Invalid Date" whose numeric projections are `NaN` (`NaN`-propagation into
  derived strings is modelled per call site);
* the GitHub `listReleases` API is a list of per-page responses, each either a
  page of raw releases or a request failure;
* the `csv-parse` library is modelled by a character-level RFC-4180 reader
  (`parseCSV`) with the library's default strict quote handling;
* `Array.prototype.sort` with an order-respecting comparator is modelled by
  `List.insertionSort` (observationally equal on the sort keys used here);
  the JS `localeCompare` string comparator is modelled by code-point
  lexicographic comparison `strLe`.
-/

/-- The numeric projections of a *valid* JavaScript `Date`: `getTime`,
`getFullYear`, `getMonth` (0–11), `getDate`, `getDay` (0–6, Sunday = 0). -/
structure JsDateParts where
  time : Int
  year : Int
  month0 : Nat
  day : Nat
  weekday : Fin 7
deriving DecidableEq

/-- Model of `new Date(string)`: `none` is an Invalid Date. -/
abbrev JsDateParser := String → Option JsDateParts

/-- JS truthiness of an optional string parameter (`undefined` and `""` are
falsy). -/
def jsTruthy : Option String → Bool
  | none => false
  | some s => !(s == "")

/-- JS `a >= b` on two `Date`s (via `valueOf`): `false` when either side is
an Invalid Date (`NaN` comparison). -/
def jsGE : Option Int → Option Int → Bool
  | some a, some b => decide (b ≤ a)
  | _, _ => false

/-- JS `a <= b` on two `Date`s: `false` when either side is invalid. -/
def jsLE : Option Int → Option Int → Bool
  | some a, some b => decide (a ≤ b)
  | _, _ => false

/-- JS `Math.round` on a rational value: `⌊x + 1/2⌋`. -/
def jsRound (q : ℚ) : ℤ := ⌊q + 1 / 2⌋

/-- JS `String.prototype.padStart(2, "0")`. -/
def padStart2 (s : String) : String :=
  ⟨List.replicate (2 - s.data.length) (Char.ofNat 48) ++ s.data⟩

/-- JS `Array.from(new Set(xs))` / first-key insertion order of object keys:
distinct elements in first-occurrence order. -/
def jsSetDedup (l : List String) : List String :=
  l.foldl (fun acc x => if x ∈ acc then acc else acc ++ [x]) []

/-- Code-point lexicographic comparison of character lists; models the
ordering produced by the `localeCompare` comparator on the ASCII month keys
and by numeric comparison of timestamps. -/
def charListLe : List Char → List Char → Bool
  | [], _ => true
  | _ :: _, [] => false
  | a :: as, b :: bs => if a = b then charListLe as bs else decide (a < b)

/-- String comparison used to model the `localeCompare` sort comparator. -/
def strLe (a b : String) : Bool := charListLe a.data b.data

/-- The character `/`. -/
def slashChar : Char := Char.ofNat 47

/-- The character `"`. -/
def quoteChar : Char := Char.ofNat 34

/-- The character `,`. -/
def commaChar : Char := Char.ofNat 44

/-- The character for a line feed. -/
def newlineChar : Char := Char.ofNat 10

/-- JS `String.prototype.split(sep)` on a single-character separator, at the
character-list level. -/
def jsSplitChar (c : Char) : List Char → List (List Char)
  | [] => [[]]
  | a :: rest =>
    let r := jsSplitChar c rest
    if a = c then [] :: r else (a :: r.headD []) :: r.tail

/-- `repo.split('/')` as used by `updateCSV`. -/
def splitRepo (s : String) : List String :=
  (jsSplitChar slashChar s.data).map (fun cs => ⟨cs⟩)

/-- The `owner` component of a configured `owner/name` repository string. -/
def ownerOf (s : String) : String := (splitRepo s).headD ""

/-- The `name` component of a configured `owner/name` repository string. -/
def nameOf (s : String) : String := ((splitRepo s).drop 1).headD ""

/-- A raw release entry as returned by the remote `listReleases` API
(nullable fields are `Option`). -/
structure RawRelease where
  tag_name : String
  name : Option String
  created_at : Option String
  published_at : Option String
  body : Option String
  draft : Bool
  prerelease : Bool
deriving DecidableEq

/-- The flat persisted record shape built in `fetchReleases`
(githubReleaseScheduler.ts); every field is serialized as a string. -/
structure ReleaseData where
  repository : String
  tag_name : String
  name : String
  created_at : String
  published_at : String
  created_at_iso : String
  published_at_iso : String
  published_year : String
  published_month : String
  published_day : String
  weekday : String
  is_weekend : String
  is_draft : String
  is_prerelease : String
  release_note_length : String
  has_release_note : String
  days_to_publish : String
deriving DecidableEq

/-- Milliseconds per day, `1000 * 60 * 60 * 24`. -/
def msPerDay : Int := 1000 * 60 * 60 * 24

/-- The normalization of one raw release performed inside `fetchReleases`
(githubReleaseScheduler.ts lines 90–115).  An invalid `publishedDate` makes
the numeric derivations `NaN`, stringified as `"NaN"` (and
`NaN === 0 || NaN === 6` is `false`). -/
def mkReleaseData (parse : JsDateParser) (owner repo : String)
    (r : RawRelease) : ReleaseData :=
  let createdDate := parse (r.created_at.getD "")
  let publishedDate := parse (r.published_at.getD "")
  { repository := owner ++ "/" ++ repo
    tag_name := r.tag_name
    name := r.name.getD ""
    created_at := r.created_at.getD ""
    published_at := r.published_at.getD ""
    created_at_iso := r.created_at.getD ""
    published_at_iso := r.published_at.getD ""
    published_year :=
      match publishedDate with
      | some d => toString d.year
      | none => "NaN"
    published_month :=
      padStart2 (match publishedDate with
        | some d => toString (d.month0 + 1)
        | none => "NaN")
    published_day :=
      padStart2 (match publishedDate with
        | some d => toString d.day
        | none => "NaN")
    weekday :=
      match publishedDate with
      | some d => toString d.weekday.val
      | none => "NaN"
    is_weekend :=
      match publishedDate with
      | some d => toString (d.weekday.val == 0 || d.weekday.val == 6)
      | none => "false"
    is_draft := toString r.draft
    is_prerelease := toString r.prerelease
    release_note_length := toString (r.body.getD "").length
    has_release_note := toString (decide ((r.body.getD "").length > 0))
    days_to_publish :=
      match publishedDate, createdDate with
      | some p, some c => toString ((p.time - c.time).fdiv msPerDay)
      | _, _ => "NaN" }

/-- One page-fetch loop of `fetchReleases` without the surrounding
`try`/`catch`: the remote API is the list of successive page responses, the
loop stops at the first empty page, and a request failure aborts the whole
repository fetch. -/
def fetchReleasesCore (parse : JsDateParser) (owner repo : String) :
    List (Except Unit (List RawRelease)) → Except Unit (List ReleaseData)
  | [] => .ok []
  | .error e :: _ => .error e
  | .ok [] :: _ => .ok []
  | .ok (x :: xs) :: rest =>
    match fetchReleasesCore parse owner repo rest with
    | .error e => .error e
    | .ok tail => .ok ((x :: xs).map (mkReleaseData parse owner repo) ++ tail)

/-- `fetchReleases` with its `catch`: a failure yields the empty list for
that repository instead of propagating. -/
def fetchReleases (parse : JsDateParser) (owner repo : String)
    (pages : List (Except Unit (List RawRelease))) : List ReleaseData :=
  match fetchReleasesCore parse owner repo pages with
  | .ok l => l
  | .error _ => []

/-- The record concatenation performed by `updateCSV`: fetch each configured
`owner/name` repository in order and flatten the results. -/
def updateCSVRecords (parse : JsDateParser) (repositories : List String)
    (api : String → List (Except Unit (List RawRelease))) : List ReleaseData :=
  repositories.flatMap (fun repo =>
    fetchReleases parse (ownerOf repo) (nameOf repo) (api repo))

/-- The CSV column names, in the insertion order of the record object
(`Object.keys(allReleases[0])`). -/
def fieldNames : List String :=
  ["repository", "tag_name", "name", "created_at", "published_at",
   "created_at_iso", "published_at_iso", "published_year", "published_month",
   "published_day", "weekday", "is_weekend", "is_draft", "is_prerelease",
   "release_note_length", "has_release_note", "days_to_publish"]

/-- `Object.values` of a record, in the same insertion order. -/
def values (r : ReleaseData) : List String :=
  [r.repository, r.tag_name, r.name, r.created_at, r.published_at,
   r.created_at_iso, r.published_at_iso, r.published_year, r.published_month,
   r.published_day, r.weekday, r.is_weekend, r.is_draft, r.is_prerelease,
   r.release_note_length, r.has_release_note, r.days_to_publish]

/-- The header line of `updateCSV`:
`Object.keys(allReleases[0] || {}).join(',')` — the empty string when no
record was fetched. -/
def csvHeaders (rs : List ReleaseData) : String :=
  match rs with
  | [] => ""
  | _ :: _ => String.intercalate "," fieldNames

/-- The value quoting of `updateCSV`: every value becomes `"${value}"`, with
no escaping of characters inside the value. -/
def quoteWrap (v : String) : String := "\"" ++ v ++ "\""

/-- One CSV data row: `Object.values(release).map(v => `"${v}"`).join(',')`. -/
def csvRow (r : ReleaseData) : String :=
  String.intercalate "," ((values r).map quoteWrap)

/-- The full CSV blob written by `updateCSV`:
`[headers, ...rows].join('\n')`. -/
def serializeCSV (rs : List ReleaseData) : String :=
  String.intercalate "\n" (csvHeaders rs :: rs.map csvRow)

/-- The string written to `releases.csv` by one ingestion run. -/
def updateCSVOutput (parse : JsDateParser) (repositories : List String)
    (api : String → List (Except Unit (List RawRelease))) : String :=
  serializeCSV (updateCSVRecords parse repositories api)

/-- Query parameters of `/api/data` (absent parameter = `none`). -/
structure QueryParams where
  startDate : Option String
  endDate : Option String
  repository : Option String

/-- The date-range filter of `dataRoutes.ts` lines 119–126: applied only when
`startDate || endDate` is truthy; bounds default to epoch / `now`; the
comparison is `publishedDate >= start && publishedDate <= end` with JS `Date`
semantics (an invalid date compares `false`). -/
def dateFilter (parse : JsDateParser) (now : Int)
    (startDate endDate : Option String) (releases : List ReleaseData) :
    List ReleaseData :=
  if jsTruthy startDate || jsTruthy endDate then
    releases.filter (fun release =>
      let publishedDate := (parse release.published_at).map (fun d => d.time)
      let start :=
        if jsTruthy startDate then
          (parse (startDate.getD "")).map (fun d => d.time)
        else some 0
      let stop :=
        if jsTruthy endDate then
          (parse (endDate.getD "")).map (fun d => d.time)
        else some now
      jsGE publishedDate start && jsLE publishedDate stop)
  else releases

/-- The repository filter of `dataRoutes.ts` lines 129–131: applied only when
`repository` is truthy and not the sentinel `"all"`. -/
def repoFilter (repository : Option String) (releases : List ReleaseData) :
    List ReleaseData :=
  match repository with
  | none => releases
  | some rep =>
    if rep ≠ "" ∧ rep ≠ "all" then
      releases.filter (fun r => r.repository == rep)
    else releases

/-- The `YYYY-MM` grouping key of `processMonthlyData`:
``${date.getFullYear()}-${String(date.getMonth() + 1).padStart(2, '0')}`` —
`"NaN-NaN"` for an invalid date. -/
def monthKey (parse : JsDateParser) (r : ReleaseData) : String :=
  (match parse r.published_at with
    | some d => toString d.year
    | none => "NaN") ++ "-" ++
  padStart2 (match parse r.published_at with
    | some d => toString (d.month0 + 1)
    | none => "NaN")

/-- One row of `monthlyData`: the month key plus one column per repository. -/
structure MonthRow where
  month : String
  cols : List (String × Nat)
deriving DecidableEq

/-- `processMonthlyData` (dataRoutes.ts lines 164–187): group by
`(monthKey, repository)`, emit one row per distinct month key with a
zero-filled column for every repository of `repositories`, sorted by the
month-key comparator. -/
def processMonthlyData (parse : JsDateParser) (releases : List ReleaseData)
    (repositories : List String) : List MonthRow :=
  let keys := jsSetDedup (releases.map (monthKey parse))
  let rows := keys.map (fun m =>
    { month := m
      cols := repositories.map (fun repo =>
        (repo, releases.countP (fun r =>
          monthKey parse r == m && r.repository == repo))) })
  List.insertionSort (fun a b => strLe a.month b.month = true) rows

/-- A `{name, value}` chart entry. -/
structure NameValue where
  name : String
  value : Nat
deriving DecidableEq

/-- The localized weekday labels, index 0 = Sunday. -/
def weekdayNames : List String := ["일", "월", "화", "수", "목", "금", "토"]

/-- `processWeekdayData` (dataRoutes.ts lines 189–202): count by the stored
`weekday` string, label via `weekdayNames[parseInt(weekday)]` (an
out-of-range index yields JS `undefined`). -/
def processWeekdayData (releases : List ReleaseData) : List NameValue :=
  let keys := jsSetDedup (releases.map (fun r => r.weekday))
  keys.map (fun k =>
    { name := ((k.toNat?).bind (fun i => weekdayNames.get? i)).getD "undefined"
      value := releases.countP (fun r => r.weekday == k) })

/-- `processReleaseTypeData` (dataRoutes.ts lines 204–216): three fixed
buckets computed by independent predicates on the stored boolean strings. -/
def processReleaseTypeData (releases : List ReleaseData) : List NameValue :=
  let regularReleases := (releases.filter (fun r =>
    r.is_prerelease == "false" && r.is_draft == "false")).length
  let preReleases := (releases.filter (fun r =>
    r.is_prerelease == "true")).length
  let drafts := (releases.filter (fun r => r.is_draft == "true")).length
  [{ name := "일반 릴리스", value := regularReleases },
   { name := "프리릴리스", value := preReleases },
   { name := "초안", value := drafts }]

/-- The summary statistics object. -/
structure Statistics where
  totalReleases : Nat
  preReleases : Nat
  averageReleaseInterval : Int
deriving DecidableEq

/-- The `sortedDates` list of `processStatistics`: valid publication
timestamps in ascending order. -/
def sortedTimes (parse : JsDateParser) (releases : List ReleaseData) :
    List Int :=
  List.insertionSort (fun a b : Int => a ≤ b)
    (releases.filterMap (fun r => (parse r.published_at).map (fun d => d.time)))

/-- `processStatistics` (dataRoutes.ts lines 218–235):
`round((last - first) / (msPerDay * (n - 1)))` over the sorted valid
timestamps, or `0` with fewer than two of them. -/
def processStatistics (parse : JsDateParser) (releases : List ReleaseData) :
    Statistics :=
  let ts := sortedTimes parse releases
  { totalReleases := releases.length
    preReleases := releases.countP (fun r => r.is_prerelease == "true")
    averageReleaseInterval :=
      if 1 < ts.length then
        jsRound (((ts.getLastD 0 - ts.headD 0 : Int) : ℚ) /
          ((msPerDay : ℚ) * ((ts.length : ℚ) - 1)))
      else 0 }

/-- The aggregate payload returned by `/api/data`. -/
structure DashboardData where
  monthlyData : List MonthRow
  weekdayData : List NameValue
  releaseTypeData : List NameValue
  statistics : Statistics
  repositories : List String
deriving DecidableEq

/-- The early-return payload of the route when `releases.csv` does not exist
(dataRoutes.ts lines 101–113); note `releaseTypeData` is the empty array
here. -/
def emptyDashboard : DashboardData :=
  { monthlyData := []
    weekdayData := []
    releaseTypeData := []
    statistics := { totalReleases := 0, preReleases := 0,
                    averageReleaseInterval := 0 }
    repositories := [] }

/-- The `/api/data` handler over an abstract store: `none` models a missing
`releases.csv`, `some releases` the parsed record set.  Filters are applied
in source order (date, then repository), and the repository list is derived
from the filtered set. -/
def apiData (parse : JsDateParser) (now : Int)
    (stored : Option (List ReleaseData)) (p : QueryParams) : DashboardData :=
  match stored with
  | none => emptyDashboard
  | some releases0 =>
    let releases1 := dateFilter parse now p.startDate p.endDate releases0
    let releases := repoFilter p.repository releases1
    let repositories := jsSetDedup (releases.map (fun r => r.repository))
    { monthlyData := processMonthlyData parse releases repositories
      weekdayData := processWeekdayData releases
      releaseTypeData := processReleaseTypeData releases
      statistics := processStatistics parse releases
      repositories := repositories }

/-- Modelled from the spec: the `averageReleaseInterval` formula as the spec
words it — `round(((max - min) in days) / (countOfDatedReleases - 1))` over
the valid publication timestamps, `0` with fewer than two of them.  Compared
against the code's `processStatistics` in claim C6. -/
def specAverageInterval (times : List Int) : Int :=
  match times.min?, times.max? with
  | some mn, some mx =>
    if 2 ≤ times.length then
      jsRound ((((mx - mn : Int) : ℚ) / (msPerDay : ℚ)) /
        ((times.length : ℚ) - 1))
    else 0
  | _, _ => 0

/-- RFC-4180 reader, quoted-field body: consume until the closing quote,
un-escaping doubled quotes; `none` when the quote is never closed
(models the `csv-parse` default quote handling). -/
def parseQuotedBody : List Char → Option (List Char × List Char)
  | [] => none
  | c :: rest =>
    if c = quoteChar then
      match rest with
      | c2 :: rest2 =>
        if c2 = quoteChar then
          match parseQuotedBody rest2 with
          | none => none
          | some (f, rem) => some (quoteChar :: f, rem)
        else some ([], rest)
      | [] => some ([], [])
    else
      match parseQuotedBody rest with
      | none => none
      | some (f, rem) => some (c :: f, rem)

/-- RFC-4180 reader, unquoted field: consume until a comma, a record
delimiter or the end of input; a quote inside an unquoted field is the
`csv-parse` `Invalid Opening Quote` error. -/
def parseUnquoted : List Char → Except String (List Char × List Char)
  | [] => .ok ([], [])
  | c :: rest =>
    if c = commaChar ∨ c = newlineChar then .ok ([], c :: rest)
    else if c = quoteChar then .error "Invalid Opening Quote"
    else
      match parseUnquoted rest with
      | .error e => .error e
      | .ok (f, rem) => .ok (c :: f, rem)

/-- Does the remaining input start at a field boundary (end of input, comma,
or record delimiter)? -/
def sepOrEnd : List Char → Bool
  | [] => true
  | c :: _ => c = commaChar || c = newlineChar

/-- RFC-4180 reader, one field: a field starting with a quote must be a
quoted field whose closing quote is followed by a field boundary, otherwise
the `csv-parse` `Invalid Closing Quote` error. -/
def parseField : List Char → Except String (String × List Char)
  | [] => .ok ("", [])
  | c :: rest =>
    if c = quoteChar then
      match parseQuotedBody rest with
      | none => .error "Quote Not Closed"
      | some (f, rem) =>
        if sepOrEnd rem then .ok (⟨f⟩, rem) else .error "Invalid Closing Quote"
    else
      match parseUnquoted (c :: rest) with
      | .error e => .error e
      | .ok (f, rem) => .ok (⟨f⟩, rem)

/-- RFC-4180 reader, the fields of one record (fuel bounds the field count;
it is always instantiated large enough). -/
def parseFields : Nat → List Char → Except String (List String × List Char)
  | 0, _ => .error "Out Of Fuel"
  | f + 1, l =>
    match parseField l with
    | .error e => .error e
    | .ok (fld, rest) =>
      match rest with
      | [] => .ok ([fld], [])
      | c :: r =>
        if c = commaChar then
          match parseFields f r with
          | .error e => .error e
          | .ok (fs, rem) => .ok (fld :: fs, rem)
        else .ok ([fld], c :: r)

/-- RFC-4180 reader, all records (fuel bounds the record count; it is always
instantiated large enough).  Empty input is the empty record list, matching
`csv-parse` on an empty file. -/
def parseRows : Nat → List Char → Except String (List (List String))
  | 0, _ => .error "Out Of Fuel"
  | f + 1, l =>
    if l = [] then .ok []
    else
      match parseFields (l.length + 1) l with
      | .error e => .error e
      | .ok (fs, rest) =>
        match rest with
        | [] => .ok [fs]
        | c :: r =>
          if c = newlineChar then
            match parseRows f r with
            | .error e => .error e
            | .ok rows => .ok (fs :: rows)
          else .error "Invalid Closing Quote"

/-- Model of `parse(csvData)` from `csv-parse/sync`: the grid of string
fields (the route's `columns: true` then zips the first row, the header,
with each subsequent row). -/
def parseCSV (s : String) : Except String (List (List String)) :=
  parseRows (s.data.length + 1) s.data

/-- Character-level join with a separator list, the shape of
`Array.prototype.join` output. -/
def joinList (sep : List Char) : List (List Char) → List Char
  | [] => []
  | [x] => x
  | x :: xs => x ++ sep ++ joinList sep xs

/-- A fixed valid sample date (a Monday in January 2024). -/
def dJan15 : JsDateParts := ⟨1705276800000, 2024, 0, 15, 1⟩

/-- A fixed valid sample date (a Sunday in March 2024). -/
def dMar10 : JsDateParts := ⟨1710028800000, 2024, 2, 10, 0⟩

/-- A fixed valid sample date (January 1st 2024). -/
def dJan01 : JsDateParts := ⟨1704067200000, 2024, 0, 1, 1⟩

/-- A fixed valid sample date (December 31st 2024). -/
def dDec31 : JsDateParts := ⟨1735603200000, 2024, 11, 31, 2⟩

/-- A concrete date parser recognising the four sample date strings. -/
def sParse : JsDateParser := fun s =>
  if s = "2024-01-15" then some dJan15
  else if s = "2024-03-10" then some dMar10
  else if s = "2024-01-01" then some dJan01
  else if s = "2024-12-31" then some dDec31
  else none

/-- Builds a sample persisted record with the given key fields. -/
def sampleRec (repository published_at is_draft is_prerelease : String) :
    ReleaseData :=
  { repository := repository
    tag_name := "v1"
    name := "rel"
    created_at := "2024-01-01"
    published_at := published_at
    created_at_iso := "2024-01-01"
    published_at_iso := published_at
    published_year := "2024"
    published_month := "01"
    published_day := "15"
    weekday := "1"
    is_weekend := "false"
    is_draft := is_draft
    is_prerelease := is_prerelease
    release_note_length := "0"
    has_release_note := "false"
    days_to_publish := "0" }

/-- An ordinary release of `octo/alpha` published 2024-01-15. -/
def recA : ReleaseData := sampleRec "octo/alpha" "2024-01-15" "false" "false"

/-- A prerelease of `octo/alpha` published 2024-03-10. -/
def recB : ReleaseData := sampleRec "octo/alpha" "2024-03-10" "false" "true"

/-- A draft-and-prerelease record of `octo/beta` published 2024-03-10. -/
def recC : ReleaseData := sampleRec "octo/beta" "2024-03-10" "true" "true"

/-- A record whose `published_at` no date parser accepts. -/
def recBad : ReleaseData := sampleRec "octo/alpha" "bogus" "false" "false"

/-- A raw API release with a parsable publication date and a body. -/
def rawA : RawRelease :=
  ⟨"v1.0.0", some "first", some "2024-01-01", some "2024-01-15",
   some "notes", false, false⟩

/-- An API stub whose only page request fails. -/
def failApi : String → List (Except Unit (List RawRelease)) :=
  fun _ => [.error ()]

/-- An API stub returning one page with one release, then an empty page. -/
def okApi : String → List (Except Unit (List RawRelease)) :=
  fun _ => [.ok [rawA], .ok []]

/-- The date parser that accepts nothing. -/
def noneParse : JsDateParser := fun _ => none

/-- A record whose display name contains a comma. -/
def recComma : ReleaseData :=
  { sampleRec "octo/alpha" "2024-01-15" "false" "false" with
    name := "big, release" }

/-- A record whose display name contains a double quote. -/
def recQuote : ReleaseData :=
  { sampleRec "octo/alpha" "2024-01-15" "false" "false" with
    name := "say \"hi\"" }

theorem mem_of_mem_dateFilter {parse : JsDateParser} {now : Int}
    {sd ed : Option String} {rs : List ReleaseData} {r : ReleaseData}
    (h : r ∈ dateFilter parse now sd ed rs) : r ∈ rs := by
  unfold dateFilter at h
  split at h
  · exact (List.mem_filter.mp h).1
  · exact h

theorem mem_of_mem_repoFilter {rep : Option String} {rs : List ReleaseData}
    {r : ReleaseData} (h : r ∈ repoFilter rep rs) : r ∈ rs := by
  unfold repoFilter at h
  split at h
  · exact h
  · split at h
    · exact (List.mem_filter.mp h).1
    · exact h

theorem toString_bool_eq (b : Bool) :
    toString b = if b then "true" else "false" := by
  cases b <;> rfl

/-- C1 counterexample: with no persisted record set, the route's early return
(dataRoutes.ts lines 101–113) carries an **empty** `releaseTypeData`, not the
three zero-count entries the claim requires. -/
theorem c1_missing_store_counterexample :
    (apiData (fun _ => none) 0 none ⟨none, none, none⟩).releaseTypeData = []
    ∧ ([] : List NameValue) ≠
      [⟨"일반 릴리스", 0⟩, ⟨"프리릴리스", 0⟩, ⟨"초안", 0⟩] :=
  ⟨rfl, by decide⟩

/-- C1 (amended): if no persisted record set exists, the query returns the
well-formed empty payload — `monthlyData`, `weekdayData`, `releaseTypeData`
and `repositories` all empty and all statistics zero — rather than failing;
`releaseTypeData` is the empty list here, not three zero-count entries. -/
theorem c1_missing_store_empty_payload (parse : JsDateParser) (now : Int)
    (p : QueryParams) :
    apiData parse now none p =
      { monthlyData := []
        weekdayData := []
        releaseTypeData := []
        statistics := { totalReleases := 0, preReleases := 0,
                        averageReleaseInterval := 0 }
        repositories := [] } := rfl

/-- C2: for every query, `releaseTypeData` has exactly the three entries
[ordinary, prerelease, draft] in that fixed order, whose counts are computed
by the three independent predicates `!isPrerelease && !isDraft`,
`isPrerelease` and `isDraft` over the filtered record set (records store the
booleans as `"true"`/`"false"` strings). -/
theorem c2_release_type_buckets (parse : JsDateParser) (now : Int)
    (rs : List ReleaseData) (p : QueryParams)
    (h : ∀ r ∈ rs, (r.is_prerelease = "true" ∨ r.is_prerelease = "false") ∧
      (r.is_draft = "true" ∨ r.is_draft = "false")) :
    (apiData parse now (some rs) p).releaseTypeData =
      [⟨"일반 릴리스",
        (repoFilter p.repository
          (dateFilter parse now p.startDate p.endDate rs)).countP
          (fun r => !(r.is_prerelease == "true") && !(r.is_draft == "true"))⟩,
       ⟨"프리릴리스",
        (repoFilter p.repository
          (dateFilter parse now p.startDate p.endDate rs)).countP
          (fun r => r.is_prerelease == "true")⟩,
       ⟨"초안",
        (repoFilter p.repository
          (dateFilter parse now p.startDate p.endDate rs)).countP
          (fun r => r.is_draft == "true")⟩]
    ∧ (apiData parse now (some rs) p).releaseTypeData.length = 3 := by
  have hsub : ∀ r ∈ repoFilter p.repository
      (dateFilter parse now p.startDate p.endDate rs), r ∈ rs :=
    fun r hr => mem_of_mem_dateFilter (mem_of_mem_repoFilter hr)
  constructor
  · show processReleaseTypeData _ = _
    unfold processReleaseTypeData
    refine congrArg₂ _ ?_ (congrArg₂ _ ?_ (congrArg₂ _ ?_ rfl))
    · refine congrArg _ ?_
      rw [← List.countP_eq_length_filter]
      refine List.countP_congr (fun r hr => ?_)
      obtain ⟨hp, hd⟩ := h r (hsub r hr)
      rcases hp with hp | hp <;> rcases hd with hd | hd <;>
        simp [hp, hd]
    · exact congrArg _ (List.countP_eq_length_filter _ _).symm
    · exact congrArg _ (List.countP_eq_length_filter _ _).symm
  · rfl

/-- C2 witness at a concrete record set containing an ordinary release, a
prerelease and a draft-prerelease. -/
theorem c2_release_type_buckets_witness :
    (∀ r ∈ [recA, recB, recC],
      (r.is_prerelease = "true" ∨ r.is_prerelease = "false") ∧
      (r.is_draft = "true" ∨ r.is_draft = "false"))
    ∧ ((apiData sParse 0 (some [recA, recB, recC])
        ⟨none, none, none⟩).releaseTypeData =
      [⟨"일반 릴리스",
        (repoFilter none (dateFilter sParse 0 none none [recA, recB, recC])).countP
          (fun r => !(r.is_prerelease == "true") && !(r.is_draft == "true"))⟩,
       ⟨"프리릴리스",
        (repoFilter none (dateFilter sParse 0 none none [recA, recB, recC])).countP
          (fun r => r.is_prerelease == "true")⟩,
       ⟨"초안",
        (repoFilter none (dateFilter sParse 0 none none [recA, recB, recC])).countP
          (fun r => r.is_draft == "true")⟩]
    ∧ (apiData sParse 0 (some [recA, recB, recC])
        ⟨none, none, none⟩).releaseTypeData.length = 3) :=
  ⟨by decide, c2_release_type_buckets sParse 0 [recA, recB, recC]
    ⟨none, none, none⟩ (by decide)⟩

/-- C7: when any page request of one repository's fetch fails, that
repository's `fetchReleases` returns the empty list instead of propagating
the error, and the run's concatenated records are exactly those of the other
configured repositories. -/
theorem c7_failing_repo_isolated (parse : JsDateParser)
    (api : String → List (Except Unit (List RawRelease)))
    (pre post : List String) (rp : String) (e : Unit)
    (h : fetchReleasesCore parse (ownerOf rp) (nameOf rp) (api rp) = .error e) :
    fetchReleases parse (ownerOf rp) (nameOf rp) (api rp) = []
    ∧ updateCSVRecords parse (pre ++ rp :: post) api =
      updateCSVRecords parse pre api ++ updateCSVRecords parse post api := by
  have hempty : fetchReleases parse (ownerOf rp) (nameOf rp) (api rp) = [] := by
    unfold fetchReleases
    rw [h]
  refine ⟨hempty, ?_⟩
  unfold updateCSVRecords
  rw [List.flatMap_append, List.flatMap_cons, hempty]
  simp

/-- C7 witness: a single configured repository whose sole page request
fails contributes nothing and leaves the (empty) remainder intact. -/
theorem c7_failing_repo_isolated_witness :
    (fetchReleasesCore sParse (ownerOf "octo/alpha") (nameOf "octo/alpha")
      (failApi "octo/alpha") = .error ())
    ∧ (fetchReleases sParse (ownerOf "octo/alpha") (nameOf "octo/alpha")
        (failApi "octo/alpha") = []
      ∧ updateCSVRecords sParse ([] ++ "octo/alpha" :: []) failApi =
        updateCSVRecords sParse [] failApi ++
          updateCSVRecords sParse [] failApi) :=
  ⟨rfl, c7_failing_repo_isolated sParse failApi [] [] "octo/alpha" () rfl⟩

/-- C8: a record built at ingestion time from a release whose `publishedAt`
parses has a weekday in `[0, 6]`, `is_weekend` true exactly for weekdays 0
and 6, and `has_release_note` true exactly for a non-empty body. -/
theorem c8_record_invariants (parse : JsDateParser) (owner repo : String)
    (raw : RawRelease) (d : JsDateParts)
    (h : parse (raw.published_at.getD "") = some d) :
    ((mkReleaseData parse owner repo raw).weekday = toString d.weekday.val
      ∧ d.weekday.val ≤ 6)
    ∧ (mkReleaseData parse owner repo raw).is_weekend =
      (if d.weekday.val = 0 ∨ d.weekday.val = 6 then "true" else "false")
    ∧ (mkReleaseData parse owner repo raw).has_release_note =
      (if 0 < (raw.body.getD "").length then "true" else "false") := by
  unfold mkReleaseData
  rw [h]
  refine ⟨⟨rfl, by omega⟩, ?_, ?_⟩
  · show toString (d.weekday.val == 0 || d.weekday.val == 6) = _
    rw [toString_bool_eq]
    by_cases hw : d.weekday.val = 0 ∨ d.weekday.val = 6 <;> simp [hw]
  · show toString (decide ((raw.body.getD "").length > 0)) = _
    rw [toString_bool_eq]
    by_cases hb : 0 < (raw.body.getD "").length <;> simp [hb]

/-- C8 witness at a concrete raw release published on a Monday with a
non-empty body. -/
theorem c8_record_invariants_witness :
    (sParse (rawA.published_at.getD "") = some dJan15)
    ∧ (((mkReleaseData sParse "octo" "alpha" rawA).weekday =
        toString dJan15.weekday.val ∧ dJan15.weekday.val ≤ 6)
      ∧ (mkReleaseData sParse "octo" "alpha" rawA).is_weekend =
        (if dJan15.weekday.val = 0 ∨ dJan15.weekday.val = 6
          then "true" else "false")
      ∧ (mkReleaseData sParse "octo" "alpha" rawA).has_release_note =
        (if 0 < (rawA.body.getD "").length then "true" else "false")) :=
  ⟨rfl, c8_record_invariants sParse "octo" "alpha" rawA dJan15 rfl⟩

/-- C4: when `startDate` and/or `endDate` is given (and the given bounds
parse), exactly the records whose parsable `publishedAt` lies in the
inclusive interval `[start, end]` are retained, where a missing `startDate`
defaults to the epoch and a missing `endDate` to the current time; records
with an unparsable `publishedAt` are excluded. -/
theorem c4_date_filter_inclusive (parse : JsDateParser) (now : Int)
    (rs : List ReleaseData) (sd ed : Option String) (s e : Int)
    (hgiven : jsTruthy sd = true ∨ jsTruthy ed = true)
    (hs : if jsTruthy sd then
      (parse (sd.getD "")).map (fun d => d.time) = some s else s = 0)
    (he : if jsTruthy ed then
      (parse (ed.getD "")).map (fun d => d.time) = some e else e = now)
    (r : ReleaseData) :
    r ∈ dateFilter parse now sd ed rs ↔
      r ∈ rs ∧ ∃ t, (parse r.published_at).map (fun d => d.time) = some t ∧
        s ≤ t ∧ t ≤ e := by
  have hstart : (if jsTruthy sd then
      (parse (sd.getD "")).map (fun d => d.time) else some 0) = some s := by
    by_cases h : jsTruthy sd = true
    · rw [if_pos h]
      rw [if_pos h] at hs
      exact hs
    · have h' : ¬ (jsTruthy sd = true) := h
      rw [if_neg h']
      rw [if_neg h'] at hs
      rw [hs]
  have hstop : (if jsTruthy ed then
      (parse (ed.getD "")).map (fun d => d.time) else some now) = some e := by
    by_cases h : jsTruthy ed = true
    · rw [if_pos h]
      rw [if_pos h] at he
      exact he
    · have h' : ¬ (jsTruthy ed = true) := h
      rw [if_neg h']
      rw [if_neg h'] at he
      rw [he]
  have hcond : (jsTruthy sd || jsTruthy ed) = true := by
    rcases hgiven with h | h <;> simp [h]
  unfold dateFilter
  rw [if_pos hcond]
  simp only [List.mem_filter]
  refine and_congr_right (fun _ => ?_)
  show (jsGE ((parse r.published_at).map (fun d => d.time))
      (if jsTruthy sd then (parse (sd.getD "")).map (fun d => d.time)
        else some 0)
    && jsLE ((parse r.published_at).map (fun d => d.time))
      (if jsTruthy ed then (parse (ed.getD "")).map (fun d => d.time)
        else some now)) = true ↔ _
  rw [hstart, hstop]
  cases hpub : (parse r.published_at).map (fun d => d.time) with
  | none => simp [jsGE]
  | some t => simp [jsGE, jsLE, and_assoc]

/-- C4 witness: with both bounds given and parsable, a record published
exactly on the start bound is retained (inclusive bounds). -/
theorem c4_date_filter_inclusive_witness :
    ((jsTruthy (some "2024-01-01") = true ∨ jsTruthy (some "2024-12-31") = true)
      ∧ (if jsTruthy (some "2024-01-01") then
          (sParse ((some "2024-01-01").getD "")).map (fun d => d.time) =
            some 1704067200000
        else (1704067200000 : Int) = 0)
      ∧ (if jsTruthy (some "2024-12-31") then
          (sParse ((some "2024-12-31").getD "")).map (fun d => d.time) =
            some 1735603200000
        else (1735603200000 : Int) = 0))
    ∧ (recA ∈ dateFilter sParse 0 (some "2024-01-01") (some "2024-12-31")
        [recA] ↔
      recA ∈ [recA] ∧ ∃ t,
        (sParse recA.published_at).map (fun d => d.time) = some t ∧
        1704067200000 ≤ t ∧ t ≤ 1735603200000) :=
  ⟨⟨Or.inl (by decide), by decide, by decide⟩,
    c4_date_filter_inclusive sParse 0 [recA] (some "2024-01-01")
      (some "2024-12-31") 1704067200000 1735603200000
      (Or.inl (by decide)) (by decide) (by decide) recA⟩

/-- C5 counterexample: a record with an unparsable `publishedAt` queried
without date bounds **does** contribute a `monthlyData` row — under the
sentinel month key `"NaN-NaN"` — contradicting the claim that it contributes
no row. -/
theorem c5_invalid_date_counterexample :
    sParse recBad.published_at = none
    ∧ (apiData sParse 0 (some [recBad]) ⟨none, none, none⟩).monthlyData =
      [⟨"NaN-NaN", [("octo/alpha", 1)]⟩] := by
  refine ⟨rfl, ?_⟩
  decide

/-- C5 (amended): a record with an unparsable `publishedAt` is excluded from
any date-filtered result and contributes nothing to
`averageReleaseInterval`, and the query never fails on it; however, in
`monthlyData` it is not dropped but grouped under the sentinel month key
`"NaN-NaN"` (so with no date filter it does contribute a row). -/
theorem c5_invalid_date_handling (parse : JsDateParser) (now : Int)
    (rs : List ReleaseData) (r : ReleaseData) (sd ed : Option String)
    (hinv : parse r.published_at = none)
    (hgiven : jsTruthy sd = true ∨ jsTruthy ed = true) :
    r ∉ dateFilter parse now sd ed rs
    ∧ (processStatistics parse (r :: rs)).averageReleaseInterval =
      (processStatistics parse rs).averageReleaseInterval
    ∧ monthKey parse r = "NaN-NaN" := by
  have hcond : (jsTruthy sd || jsTruthy ed) = true := by
    rcases hgiven with h | h <;> simp [h]
  refine ⟨?_, ?_, ?_⟩
  · unfold dateFilter
    rw [if_pos hcond]
    intro hmem
    have hpred := (List.mem_filter.mp hmem).2
    simp only [hinv] at hpred
    exact absurd hpred (by simp [jsGE])
  · have hts : sortedTimes parse (r :: rs) = sortedTimes parse rs := by
      unfold sortedTimes
      rw [List.filterMap_cons]
      simp [hinv]
    unfold processStatistics
    rw [hts]
  · unfold monthKey
    rw [hinv]
    decide

/-- C5 witness: the unparsable record is dropped from a date-bounded query
over a mixed set, leaves the average interval unchanged, and carries the
`"NaN-NaN"` month key. -/
theorem c5_invalid_date_handling_witness :
    (sParse recBad.published_at = none
      ∧ (jsTruthy (some "2024-01-01") = true ∨ jsTruthy none = true))
    ∧ (recBad ∉ dateFilter sParse 0 (some "2024-01-01") none [recA, recB]
      ∧ (processStatistics sParse (recBad :: [recA, recB])).averageReleaseInterval =
        (processStatistics sParse [recA, recB]).averageReleaseInterval
      ∧ monthKey sParse recBad = "NaN-NaN") :=
  ⟨⟨rfl, Or.inl (by decide)⟩,
    c5_invalid_date_handling sParse 0 [recA, recB] recBad
      (some "2024-01-01") none rfl (Or.inl (by decide))⟩

theorem headD_mem_of_ne_nil {l : List Int} (h : l ≠ []) (d : Int) :
    l.headD d ∈ l := by
  cases l with
  | nil => exact absurd rfl h
  | cons a t => simp

theorem sorted_headD_le {l : List Int}
    (hs : l.Sorted (fun a b : Int => a ≤ b)) (d : Int) :
    ∀ b ∈ l, l.headD d ≤ b := by
  cases l with
  | nil => intro b hb; simp at hb
  | cons a t =>
    intro b hb
    rcases List.mem_cons.mp hb with rfl | hb
    · simp
    · simpa using (List.sorted_cons.mp hs).1 b hb

theorem getLastD_mem_of_ne_nil {l : List Int} (h : l ≠ []) (d : Int) :
    l.getLastD d ∈ l := by
  induction l generalizing d with
  | nil => exact absurd rfl h
  | cons a t ih =>
    cases t with
    | nil => simp [List.getLastD]
    | cons c t' =>
      rw [List.getLastD_cons]
      exact List.mem_cons_of_mem a (ih (by simp) a)

theorem sorted_le_getLastD {l : List Int}
    (hs : l.Sorted (fun a b : Int => a ≤ b)) (d : Int) :
    ∀ b ∈ l, b ≤ l.getLastD d := by
  induction l generalizing d with
  | nil => intro b hb; simp at hb
  | cons a t ih =>
    intro b hb
    have hsc := List.sorted_cons.mp hs
    rcases List.mem_cons.mp hb with rfl | hb
    · cases t with
      | nil => simp [List.getLastD]
      | cons c t' =>
        rw [List.getLastD_cons]
        exact hsc.1 _ (getLastD_mem_of_ne_nil (by simp) b)
    · rw [List.getLastD_cons]
      exact ih hsc.2 a b hb

theorem sortedTimes_sorted (parse : JsDateParser) (rs : List ReleaseData) :
    (sortedTimes parse rs).Sorted (fun a b : Int => a ≤ b) := by
  unfold sortedTimes
  exact List.sorted_insertionSort _ _

theorem sortedTimes_perm (parse : JsDateParser) (rs : List ReleaseData) :
    (sortedTimes parse rs).Perm
      (rs.filterMap (fun r => (parse r.published_at).map (fun d => d.time))) :=
  List.perm_insertionSort _ _

/-- C6: `averageReleaseInterval` equals the spec formula — the rounded value
of (latest valid `publishedAt` minus earliest valid `publishedAt`, in days)
divided by (count of dated releases − 1), and `0` with fewer than two valid
timestamps. -/
theorem c6_average_release_interval (parse : JsDateParser)
    (rs : List ReleaseData) :
    (processStatistics parse rs).averageReleaseInterval =
      specAverageInterval
        (rs.filterMap (fun r => (parse r.published_at).map (fun d => d.time))) := by
  set times := rs.filterMap (fun r => (parse r.published_at).map (fun d => d.time))
    with htimes
  have hperm := sortedTimes_perm parse rs
  have hsorted := sortedTimes_sorted parse rs
  have hlen : (sortedTimes parse rs).length = times.length := hperm.length_eq
  show (if 1 < (sortedTimes parse rs).length then
      jsRound ((((sortedTimes parse rs).getLastD 0 -
          (sortedTimes parse rs).headD 0 : Int) : ℚ) /
        ((msPerDay : ℚ) * (((sortedTimes parse rs).length : ℚ) - 1)))
    else 0) = specAverageInterval times
  by_cases h2 : 1 < (sortedTimes parse rs).length
  · have hne : sortedTimes parse rs ≠ [] := by
      intro hnil
      rw [hnil] at h2
      simp at h2
    have h2' : 2 ≤ times.length := by omega
    have hmin : times.min? = some ((sortedTimes parse rs).headD 0) := by
      refine (@List.min?_eq_some_iff Int _ _ _
        ⟨fun h h' => le_antisymm h h'⟩ (fun a => le_refl a)
        (fun a b => min_choice a b) (fun a b c => le_min_iff) times).mpr ?_
      exact ⟨hperm.mem_iff.mp (headD_mem_of_ne_nil hne 0),
        fun b hb => sorted_headD_le hsorted 0 b (hperm.mem_iff.mpr hb)⟩
    have hmax : times.max? = some ((sortedTimes parse rs).getLastD 0) := by
      refine (@List.max?_eq_some_iff Int _ _ _
        ⟨fun h h' => le_antisymm h h'⟩ (fun a => le_refl a)
        (fun a b => max_choice a b) (fun a b c => max_le_iff) times).mpr ?_
      exact ⟨hperm.mem_iff.mp (getLastD_mem_of_ne_nil hne 0),
        fun b hb => sorted_le_getLastD hsorted 0 b (hperm.mem_iff.mpr hb)⟩
    unfold specAverageInterval
    rw [hmin, hmax, if_pos h2]
    show jsRound _ = if 2 ≤ times.length then _ else 0
    rw [if_pos h2']
    congr 1
    rw [div_div, hlen]
  · rw [if_neg h2]
    have hn2 : ¬ 2 ≤ times.length := by omega
    unfold specAverageInterval
    cases times.min? <;> cases times.max? <;> simp [hn2]

theorem mem_foldl_dedup (l : List String) :
    ∀ (acc : List String) (a : String),
      (a ∈ l.foldl (fun acc x => if x ∈ acc then acc else acc ++ [x]) acc) ↔
        (a ∈ acc ∨ a ∈ l) := by
  induction l with
  | nil => intro acc a; simp
  | cons x t ih =>
    intro acc a
    rw [List.foldl_cons, ih]
    by_cases hx : x ∈ acc
    · rw [if_pos hx]
      constructor
      · rintro (h | h)
        · exact Or.inl h
        · exact Or.inr (List.mem_cons_of_mem x h)
      · rintro (h | h)
        · exact Or.inl h
        · rcases List.mem_cons.mp h with rfl | h
          · exact Or.inl hx
          · exact Or.inr h
    · rw [if_neg hx]
      simp [List.mem_append, List.mem_cons, or_assoc]

theorem jsSetDedup_mem {l : List String} {a : String} :
    a ∈ jsSetDedup l ↔ a ∈ l := by
  unfold jsSetDedup
  rw [mem_foldl_dedup]
  simp

theorem charListLe_total : ∀ a b : List Char,
    charListLe a b = true ∨ charListLe b a = true := by
  intro a
  induction a with
  | nil => intro b; exact Or.inl rfl
  | cons x xs ih =>
    intro b
    cases b with
    | nil => exact Or.inr rfl
    | cons y ys =>
      by_cases hxy : x = y
      · subst hxy
        rcases ih ys with h | h
        · exact Or.inl (by simp [charListLe, h])
        · exact Or.inr (by simp [charListLe, h])
      · rcases lt_or_gt_of_ne hxy with h | h
        · exact Or.inl (by simp [charListLe, hxy, h])
        · exact Or.inr (by
            have hyx : ¬ y = x := fun heq => hxy heq.symm
            simp [charListLe, hyx, h])

theorem charListLe_trans : ∀ a b c : List Char,
    charListLe a b = true → charListLe b c = true → charListLe a c = true := by
  intro a
  induction a with
  | nil => intro b c _ _; rfl
  | cons x xs ih =>
    intro b c hab hbc
    cases b with
    | nil => simp [charListLe] at hab
    | cons y ys =>
      cases c with
      | nil => simp [charListLe] at hbc
      | cons z zs =>
        by_cases hxy : x = y <;> by_cases hyz : y = z
        · subst hxy; subst hyz
          simp only [charListLe, if_pos rfl] at hab hbc ⊢
          exact ih ys zs hab hbc
        · subst hxy
          simp only [charListLe, if_neg hyz] at hbc
          have hlt : x < z := by simpa using hbc
          have hxz : ¬ x = z := ne_of_lt hlt
          simp [charListLe, hxz, hlt]
        · subst hyz
          simp only [charListLe, if_neg hxy] at hab
          have hlt : x < y := by simpa using hab
          have hxz : ¬ x = y := ne_of_lt hlt
          simp [charListLe, hxz, hlt]
        · simp only [charListLe, if_neg hxy] at hab
          simp only [charListLe, if_neg hyz] at hbc
          have h1 : x < y := by simpa using hab
          have h2 : y < z := by simpa using hbc
          have hlt : x < z := lt_trans h1 h2
          have hxz : ¬ x = z := ne_of_lt hlt
          simp [charListLe, hxz, hlt]

theorem processMonthlyData_eq (parse : JsDateParser) (rs : List ReleaseData)
    (repos : List String) :
    processMonthlyData parse rs repos =
      List.insertionSort (fun a b => strLe a.month b.month = true)
        ((jsSetDedup (rs.map (monthKey parse))).map (fun m =>
          { month := m
            cols := repos.map (fun repo => (repo, rs.countP (fun r =>
              monthKey parse r == m && r.repository == repo))) })) := rfl

/-- C3: `monthlyData` has exactly one row per distinct month key present in
the filtered set, the rows are sorted ascending by month key, every row's
month key is the `YYYY-MM` derivation of some record's valid `publishedAt`,
and every row carries one column per repository of the filtered set whose
value is the number of records with that exact (month, repository) pair
(zero included, not omitted). -/
theorem c3_monthly_aggregation (parse : JsDateParser) (rs : List ReleaseData)
    (hvalid : ∀ r ∈ rs, (parse r.published_at).isSome = true) :
    ((processMonthlyData parse rs
        (jsSetDedup (rs.map (fun r => r.repository)))).map
        (fun row => row.month)).Perm (jsSetDedup (rs.map (monthKey parse)))
    ∧ ((processMonthlyData parse rs
        (jsSetDedup (rs.map (fun r => r.repository)))).map
        (fun row => row.month)).Pairwise (fun a b => strLe a b = true)
    ∧ (∀ row ∈ processMonthlyData parse rs
        (jsSetDedup (rs.map (fun r => r.repository))),
        ∃ r ∈ rs, ∃ d, parse r.published_at = some d ∧
          row.month = toString d.year ++ "-" ++
            padStart2 (toString (d.month0 + 1)))
    ∧ (∀ row ∈ processMonthlyData parse rs
        (jsSetDedup (rs.map (fun r => r.repository))),
        row.cols = (jsSetDedup (rs.map (fun r => r.repository))).map
          (fun repo => (repo, rs.countP (fun r =>
            monthKey parse r == row.month && r.repository == repo)))) := by
  have hperm := List.perm_insertionSort
    (fun a b : MonthRow => strLe a.month b.month = true)
    ((jsSetDedup (rs.map (monthKey parse))).map (fun m =>
      { month := m
        cols := (jsSetDedup (rs.map (fun r => r.repository))).map
          (fun repo => (repo, rs.countP (fun r =>
            monthKey parse r == m && r.repository == repo))) }))
  have hrows_month :
      (((jsSetDedup (rs.map (monthKey parse))).map (fun m =>
        ({ month := m
           cols := (jsSetDedup (rs.map (fun r => r.repository))).map
             (fun repo => (repo, rs.countP (fun r =>
               monthKey parse r == m && r.repository == repo))) } :
          MonthRow))).map (fun row => row.month)) =
      jsSetDedup (rs.map (monthKey parse)) := by
    rw [List.map_map]
    exact List.map_id _
  refine ⟨?_, ?_, ?_, ?_⟩
  · rw [processMonthlyData_eq]
    have := hperm.map (fun row => row.month)
    rw [hrows_month] at this
    exact this
  · rw [processMonthlyData_eq]
    have hsorted := @List.sorted_insertionSort MonthRow
      (fun a b => strLe a.month b.month = true) _
      ⟨fun a b => charListLe_total a.month.data b.month.data⟩
      ⟨fun _ _ _ hab hbc => charListLe_trans _ _ _ hab hbc⟩
      ((jsSetDedup (rs.map (monthKey parse))).map (fun m =>
        { month := m
          cols := (jsSetDedup (rs.map (fun r => r.repository))).map
            (fun repo => (repo, rs.countP (fun r =>
              monthKey parse r == m && r.repository == repo))) }))
    exact List.pairwise_map.mpr hsorted
  · intro row hrow
    rw [processMonthlyData_eq] at hrow
    have hrowmem := hperm.mem_iff.mp hrow
    obtain ⟨m, hmk, heq⟩ := List.mem_map.mp hrowmem
    obtain ⟨r, hr, hmkey⟩ := List.mem_map.mp (jsSetDedup_mem.mp hmk)
    obtain ⟨d, hd⟩ := Option.isSome_iff_exists.mp (hvalid r hr)
    refine ⟨r, hr, d, hd, ?_⟩
    have hmonth : monthKey parse r =
        toString d.year ++ "-" ++ padStart2 (toString (d.month0 + 1)) := by
      unfold monthKey
      rw [hd]
    rw [← heq]
    show m = _
    rw [← hmkey, hmonth]
  · intro row hrow
    rw [processMonthlyData_eq] at hrow
    have hrowmem := hperm.mem_iff.mp hrow
    obtain ⟨m, hmk, heq⟩ := List.mem_map.mp hrowmem
    rw [← heq]

/-- C3 witness at a concrete two-record set whose months arrive unsorted. -/
theorem c3_monthly_aggregation_witness :
    (∀ r ∈ [recB, recA], (sParse r.published_at).isSome = true)
    ∧ (((processMonthlyData sParse [recB, recA]
        (jsSetDedup ([recB, recA].map (fun r => r.repository)))).map
        (fun row => row.month)).Perm
          (jsSetDedup ([recB, recA].map (monthKey sParse)))
      ∧ ((processMonthlyData sParse [recB, recA]
          (jsSetDedup ([recB, recA].map (fun r => r.repository)))).map
          (fun row => row.month)).Pairwise (fun a b => strLe a b = true)
      ∧ (∀ row ∈ processMonthlyData sParse [recB, recA]
          (jsSetDedup ([recB, recA].map (fun r => r.repository))),
          ∃ r ∈ [recB, recA], ∃ d, sParse r.published_at = some d ∧
            row.month = toString d.year ++ "-" ++
              padStart2 (toString (d.month0 + 1)))
      ∧ (∀ row ∈ processMonthlyData sParse [recB, recA]
          (jsSetDedup ([recB, recA].map (fun r => r.repository))),
          row.cols = (jsSetDedup ([recB, recA].map (fun r => r.repository))).map
            (fun repo => (repo, [recB, recA].countP (fun r =>
              monthKey sParse r == row.month && r.repository == repo))))) :=
  ⟨by decide, c3_monthly_aggregation sParse [recB, recA] (by decide)⟩

theorem joinList_glue (sep x y : List Char) (rest : List (List Char)) :
    joinList sep ((x ++ sep ++ y) :: rest) = x ++ sep ++ joinList sep (y :: rest) := by
  cases rest with
  | nil => simp [joinList]
  | cons r t => simp [joinList, List.append_assoc]

theorem intercalate_go_data (s : String) :
    ∀ (as : List String) (acc : String),
      (String.intercalate.go acc s as).data =
        joinList s.data ((acc :: as).map String.data) := by
  intro as
  induction as with
  | nil => intro acc; rfl
  | cons a t ih =>
    intro acc
    show (String.intercalate.go (acc ++ s ++ a) s t).data = _
    rw [ih (acc ++ s ++ a)]
    simp only [List.map_cons]
    rw [show (acc ++ s ++ a).data = acc.data ++ s.data ++ a.data by
      rw [String.data_append, String.data_append]]
    rw [joinList_glue]
    simp [joinList]

theorem intercalate_data (s : String) (l : List String) :
    (String.intercalate s l).data = joinList s.data (l.map String.data) := by
  cases l with
  | nil => rfl
  | cons a as => exact intercalate_go_data s as a

theorem csvRow_data (r : ReleaseData) :
    (csvRow r).data = joinList [commaChar]
      ((values r).map (fun v => quoteChar :: v.data ++ [quoteChar])) := by
  unfold csvRow
  rw [intercalate_data, List.map_map]
  have hfun : (String.data ∘ quoteWrap) =
      (fun v => quoteChar :: v.data ++ [quoteChar]) := by
    funext v
    show (quoteWrap v).data = _
    unfold quoteWrap
    rw [String.data_append, String.data_append]
    rfl
  rw [hfun]
  rw [show (("," : String)).data = [commaChar] from by decide]

theorem serializeCSV_data (rs : List ReleaseData) :
    (serializeCSV rs).data = joinList [newlineChar]
      ((csvHeaders rs).data :: (rs.map csvRow).map String.data) := by
  unfold serializeCSV
  rw [intercalate_data]
  rfl

theorem joinList_cons_ne_nil {sep a : List Char} {t : List (List Char)}
    (ha : a ≠ []) : joinList sep (a :: t) ≠ [] := by
  cases t with
  | nil => simpa [joinList] using ha
  | cons r t' => simp [joinList, List.append_eq_nil, ha]

theorem length_le_joinList :
    ∀ (xs : List (List Char)) (sep : List Char), (∀ x ∈ xs, x ≠ []) →
      xs.length ≤ (joinList sep xs).length := by
  intro xs
  induction xs with
  | nil => intro sep _; simp [joinList]
  | cons a t ih =>
    intro sep hx
    have ha : a ≠ [] := hx a (by simp)
    have h1 : 1 ≤ a.length := List.length_pos.mpr ha
    cases t with
    | nil => simpa [joinList] using h1
    | cons r t' =>
      have h2 := ih sep (fun x hmem => hx x (List.mem_cons_of_mem a hmem))
      simp only [joinList, List.length_append, List.length_cons] at h2 ⊢
      omega

theorem parseQuotedBody_of_no_quote :
    ∀ (v rest : List Char), quoteChar ∉ v →
      rest.head? ≠ some quoteChar →
      parseQuotedBody (v ++ quoteChar :: rest) = some (v, rest) := by
  intro v
  induction v with
  | nil =>
    intro rest _ hrest
    show parseQuotedBody (quoteChar :: rest) = some ([], rest)
    unfold parseQuotedBody
    rw [if_pos rfl]
    cases rest with
    | nil => rfl
    | cons c2 r2 =>
      have hc2 : ¬ c2 = quoteChar := fun h => hrest (by simp [h])
      simp [hc2]
  | cons x v' ih =>
    intro rest hv hrest
    have hx : ¬ x = quoteChar := fun h => hv (by simp [h])
    show parseQuotedBody (x :: (v' ++ quoteChar :: rest)) = some (x :: v', rest)
    unfold parseQuotedBody
    rw [if_neg hx]
    rw [ih rest (fun h => hv (List.mem_cons_of_mem x h)) hrest]

theorem parseUnquoted_of_safe :
    ∀ (f rest : List Char),
      (∀ c ∈ f, ¬ c = commaChar ∧ ¬ c = newlineChar ∧ ¬ c = quoteChar) →
      (rest = [] ∨ rest.head? = some commaChar ∨
        rest.head? = some newlineChar) →
      parseUnquoted (f ++ rest) = .ok (f, rest) := by
  intro f
  induction f with
  | nil =>
    intro rest _ hrest
    rcases hrest with rfl | h | h
    · rfl
    · cases rest with
      | nil => simp at h
      | cons c r =>
        have hc : c = commaChar := by simpa using h
        subst hc
        show parseUnquoted (commaChar :: r) = _
        unfold parseUnquoted
        rw [if_pos (Or.inl rfl)]
    · cases rest with
      | nil => simp at h
      | cons c r =>
        have hc : c = newlineChar := by simpa using h
        subst hc
        show parseUnquoted (newlineChar :: r) = _
        unfold parseUnquoted
        rw [if_pos (Or.inr rfl)]
  | cons x f' ih =>
    intro rest hf hrest
    obtain ⟨h1, h2, h3⟩ := hf x (by simp)
    show parseUnquoted (x :: (f' ++ rest)) = _
    unfold parseUnquoted
    rw [if_neg (fun h => h.elim h1 h2)]
    rw [if_neg h3]
    rw [ih rest (fun c hc => hf c (List.mem_cons_of_mem x hc)) hrest]

theorem parseField_eq_unquoted (l : List Char)
    (hl : l.head? ≠ some quoteChar) :
    parseField l = (match parseUnquoted l with
      | .error e => .error e
      | .ok (f, rem) => .ok ((⟨f⟩ : String), rem)) := by
  cases l with
  | nil => rfl
  | cons c r =>
    have hc : ¬ c = quoteChar := fun h => hl (by simp [h])
    simp only [parseField]
    rw [if_neg hc]

theorem parseField_unquoted (f rest : List Char)
    (hf : ∀ c ∈ f, ¬ c = commaChar ∧ ¬ c = newlineChar ∧ ¬ c = quoteChar)
    (hrest : rest = [] ∨ rest.head? = some commaChar ∨
      rest.head? = some newlineChar) :
    parseField (f ++ rest) = .ok ((⟨f⟩ : String), rest) := by
  have hhead : (f ++ rest).head? ≠ some quoteChar := by
    cases f with
    | nil =>
      simp only [List.nil_append]
      rcases hrest with rfl | h | h
      · simp
      · rw [h]; decide
      · rw [h]; decide
    | cons x f' =>
      have hx := (hf x (by simp)).2.2
      simpa using hx
  rw [parseField_eq_unquoted _ hhead, parseUnquoted_of_safe f rest hf hrest]

theorem parseField_quoted (v rest : List Char) (hv : quoteChar ∉ v)
    (hrest : sepOrEnd rest = true) :
    parseField (quoteChar :: v ++ quoteChar :: rest) =
      .ok ((⟨v⟩ : String), rest) := by
  have hrest' : rest.head? ≠ some quoteChar := by
    cases rest with
    | nil => simp
    | cons c r =>
      have hcr : c = commaChar ∨ c = newlineChar := by
        simpa [sepOrEnd] using hrest
      rcases hcr with rfl | rfl <;>
        · intro h
          rw [List.head?_cons] at h
          exact absurd (Option.some.inj h) (by decide)
  show parseField (quoteChar :: (v ++ quoteChar :: rest)) = _
  simp only [parseField, if_true]
  rw [parseQuotedBody_of_no_quote v rest hv hrest']
  simp [hrest]

theorem joinList_cons_cons (sep a b : List Char) (t : List (List Char)) :
    joinList sep (a :: b :: t) = a ++ sep ++ joinList sep (b :: t) := rfl

theorem parseRows_succ (f : Nat) (l : List Char) :
    parseRows (f + 1) l = (if l = [] then .ok []
      else match parseFields (l.length + 1) l with
      | .error e => .error e
      | .ok (fs, rest) =>
        match rest with
        | [] => .ok [fs]
        | c :: r =>
          if c = newlineChar then
            match parseRows f r with
            | .error e => .error e
            | .ok rows => .ok (fs :: rows)
          else .error "Invalid Closing Quote") := rfl

theorem parseFields_quoted :
    ∀ (vs : List String) (suffix : List Char) (fuel : Nat),
      vs ≠ [] →
      (∀ v ∈ vs, quoteChar ∉ v.data) →
      (suffix = [] ∨ suffix.head? = some newlineChar) →
      vs.length ≤ fuel →
      parseFields fuel
        (joinList [commaChar]
          (vs.map (fun v => quoteChar :: v.data ++ [quoteChar])) ++ suffix) =
        .ok (vs, suffix) := by
  intro vs
  induction vs with
  | nil => intro suffix fuel hne _ _ _; exact absurd rfl hne
  | cons v vs' ih =>
    intro suffix fuel hne hq hsuf hfuel
    obtain ⟨f, rfl⟩ : ∃ f, fuel = f + 1 := by
      cases fuel with
      | zero => simp at hfuel
      | succ f => exact ⟨f, rfl⟩
    have hsep : sepOrEnd suffix = true := by
      rcases hsuf with rfl | h
      · rfl
      · cases suffix with
        | nil => rfl
        | cons c r =>
          have hc : c = newlineChar := by simpa using h
          subst hc
          rfl
    cases vs' with
    | nil =>
      have harr : joinList [commaChar]
          (([v]).map (fun v => quoteChar :: v.data ++ [quoteChar])) ++ suffix =
          quoteChar :: (v.data ++ quoteChar :: suffix) := by
        simp [joinList]
      rw [harr]
      simp only [parseFields]
      rw [show parseField (quoteChar :: (v.data ++ quoteChar :: suffix)) =
        Except.ok ((⟨v.data⟩ : String), suffix) from
        parseField_quoted v.data suffix (hq v (by simp)) hsep]
      rcases hsuf with rfl | h
      · rfl
      · cases suffix with
        | nil => rfl
        | cons c r =>
          have hc : c = newlineChar := by simpa using h
          subst hc
          rfl
    | cons v2 vs'' =>
      have harr : joinList [commaChar]
          ((v :: v2 :: vs'').map (fun v => quoteChar :: v.data ++ [quoteChar]))
            ++ suffix =
          quoteChar :: (v.data ++ quoteChar :: (commaChar ::
            (joinList [commaChar]
              ((v2 :: vs'').map (fun v => quoteChar :: v.data ++ [quoteChar]))
              ++ suffix))) := by
        simp [joinList, List.append_assoc]
      rw [harr]
      simp only [parseFields]
      rw [show parseField (quoteChar :: (v.data ++ quoteChar :: (commaChar ::
          (joinList [commaChar]
            ((v2 :: vs'').map (fun v => quoteChar :: v.data ++ [quoteChar]))
            ++ suffix)))) =
        Except.ok ((⟨v.data⟩ : String), commaChar ::
          (joinList [commaChar]
            ((v2 :: vs'').map (fun v => quoteChar :: v.data ++ [quoteChar]))
            ++ suffix)) from
        parseField_quoted v.data _ (hq v (by simp)) rfl]
      show (match parseFields f
          (joinList [commaChar]
            ((v2 :: vs'').map (fun v => quoteChar :: v.data ++ [quoteChar]))
            ++ suffix) with
        | Except.error e => (Except.error e :
            Except String (List String × List Char))
        | Except.ok (fs, rem) => Except.ok (v :: fs, rem)) =
        Except.ok (v :: v2 :: vs'', suffix)
      rw [ih suffix f (by simp) (fun x hx => hq x (List.mem_cons_of_mem v hx))
        hsuf (by simp only [List.length_cons] at hfuel ⊢; omega)]

theorem parseFields_unquoted :
    ∀ (ns : List String) (suffix : List Char) (fuel : Nat),
      ns ≠ [] →
      (∀ n ∈ ns, ∀ c ∈ n.data,
        ¬ c = commaChar ∧ ¬ c = newlineChar ∧ ¬ c = quoteChar) →
      (suffix = [] ∨ suffix.head? = some newlineChar) →
      ns.length ≤ fuel →
      parseFields fuel (joinList [commaChar] (ns.map String.data) ++ suffix) =
        .ok (ns, suffix) := by
  intro ns
  induction ns with
  | nil => intro suffix fuel hne _ _ _; exact absurd rfl hne
  | cons n ns' ih =>
    intro suffix fuel hne hf hsuf hfuel
    obtain ⟨f, rfl⟩ : ∃ f, fuel = f + 1 := by
      cases fuel with
      | zero => simp at hfuel
      | succ f => exact ⟨f, rfl⟩
    cases ns' with
    | nil =>
      have harr : joinList [commaChar] (([n]).map String.data) ++ suffix =
          n.data ++ suffix := by
        simp [joinList]
      rw [harr]
      simp only [parseFields]
      rw [show parseField (n.data ++ suffix) =
        Except.ok ((⟨n.data⟩ : String), suffix) from
        parseField_unquoted n.data suffix (hf n (by simp))
          (hsuf.elim Or.inl (fun h => Or.inr (Or.inr h)))]
      rcases hsuf with rfl | h
      · rfl
      · cases suffix with
        | nil => rfl
        | cons c r =>
          have hc : c = newlineChar := by simpa using h
          subst hc
          rfl
    | cons n2 ns'' =>
      have harr : joinList [commaChar] ((n :: n2 :: ns'').map String.data)
            ++ suffix =
          n.data ++ (commaChar ::
            (joinList [commaChar] ((n2 :: ns'').map String.data)
              ++ suffix)) := by
        simp [joinList, List.append_assoc]
      rw [harr]
      simp only [parseFields]
      rw [show parseField (n.data ++ (commaChar ::
          (joinList [commaChar] ((n2 :: ns'').map String.data) ++ suffix))) =
        Except.ok ((⟨n.data⟩ : String), commaChar ::
          (joinList [commaChar] ((n2 :: ns'').map String.data) ++ suffix)) from
        parseField_unquoted n.data _ (hf n (by simp)) (Or.inr (Or.inl rfl))]
      show (match parseFields f
          (joinList [commaChar] ((n2 :: ns'').map String.data) ++ suffix) with
        | Except.error e => (Except.error e :
            Except String (List String × List Char))
        | Except.ok (fs, rem) => Except.ok (n :: fs, rem)) =
        Except.ok (n :: n2 :: ns'', suffix)
      rw [ih suffix f (by simp) (fun x hx => hf x (List.mem_cons_of_mem n hx))
        hsuf (by simp only [List.length_cons] at hfuel ⊢; omega)]

theorem rowData_ne_nil (r : ReleaseData) :
    joinList [commaChar]
      ((values r).map (fun v => quoteChar :: v.data ++ [quoteChar])) ≠ [] :=
  joinList_cons_ne_nil (by simp)

theorem values_length_le_rowData (r : ReleaseData) :
    (values r).length ≤ (joinList [commaChar]
      ((values r).map (fun v => quoteChar :: v.data ++ [quoteChar]))).length := by
  have h := length_le_joinList
    ((values r).map (fun v => quoteChar :: v.data ++ [quoteChar])) [commaChar]
    (by
      intro x hx
      obtain ⟨v, _, rfl⟩ := List.mem_map.mp hx
      simp)
  rw [List.length_map] at h
  exact h

theorem parseRows_rows :
    ∀ (rows : List ReleaseData) (fuel : Nat),
      rows ≠ [] →
      (∀ r ∈ rows, ∀ v ∈ values r, quoteChar ∉ v.data) →
      rows.length ≤ fuel →
      parseRows fuel
        (joinList [newlineChar] ((rows.map csvRow).map String.data)) =
        .ok (rows.map values) := by
  intro rows
  induction rows with
  | nil => intro fuel h _ _; exact absurd rfl h
  | cons r rows' ih =>
    intro fuel hne hq hfuel
    obtain ⟨f, rfl⟩ : ∃ f, fuel = f + 1 := by
      cases fuel with
      | zero => simp at hfuel
      | succ f => exact ⟨f, rfl⟩
    cases rows' with
    | nil =>
      have hinput : joinList [newlineChar]
          ((([r] : List ReleaseData).map csvRow).map String.data) =
          (csvRow r).data := rfl
      rw [hinput, csvRow_data]
      simp only [parseRows]
      rw [if_neg (rowData_ne_nil r)]
      have hfq := parseFields_quoted (values r) []
        ((joinList [commaChar]
          ((values r).map (fun v => quoteChar :: v.data ++ [quoteChar]))).length
          + 1)
        (by simp [values]) (hq r (by simp)) (Or.inl rfl)
        (by have := values_length_le_rowData r; omega)
      rw [List.append_nil] at hfq
      rw [hfq]
      rfl
    | cons r2 rows'' =>
      have harr : joinList [newlineChar]
          (((r :: r2 :: rows'').map csvRow).map String.data) =
          (csvRow r).data ++ (newlineChar :: joinList [newlineChar]
            (((r2 :: rows'').map csvRow).map String.data)) := by
        simp [joinList]
      rw [harr, csvRow_data]
      simp only [parseRows]
      have hnn : joinList [commaChar]
          ((values r).map (fun v => quoteChar :: v.data ++ [quoteChar])) ++
          (newlineChar :: joinList [newlineChar]
            (((r2 :: rows'').map csvRow).map String.data)) ≠ [] := by
        intro h
        exact rowData_ne_nil r (List.append_eq_nil.mp h).1
      rw [if_neg hnn]
      have hfq := parseFields_quoted (values r)
        (newlineChar :: joinList [newlineChar]
          (((r2 :: rows'').map csvRow).map String.data))
        ((joinList [commaChar]
          ((values r).map (fun v => quoteChar :: v.data ++ [quoteChar])) ++
          (newlineChar :: joinList [newlineChar]
            (((r2 :: rows'').map csvRow).map String.data))).length + 1)
        (by simp [values]) (hq r (by simp)) (Or.inr rfl)
        (by
          have h1 := values_length_le_rowData r
          simp only [List.length_append]
          omega)
      rw [hfq]
      show (match parseRows f
          (joinList [newlineChar]
            (((r2 :: rows'').map csvRow).map String.data)) with
        | Except.error e => (Except.error e :
            Except String (List (List String)))
        | Except.ok rows => Except.ok (values r :: rows)) =
        Except.ok ((r :: r2 :: rows'').map values)
      rw [ih f (by simp) (fun x hx => hq x (List.mem_cons_of_mem r hx))
        (by simp only [List.length_cons] at hfuel ⊢; omega)]
      rfl

theorem parseCSV_serializeCSV (rs : List ReleaseData) (hne : rs ≠ [])
    (hq : ∀ r ∈ rs, ∀ v ∈ values r, quoteChar ∉ v.data) :
    parseCSV (serializeCSV rs) = .ok (fieldNames :: rs.map values) := by
  obtain ⟨r, rs', rfl⟩ := List.exists_cons_of_ne_nil hne
  have hhdrD : (csvHeaders (r :: rs')).data =
      joinList [commaChar] (fieldNames.map String.data) := by
    show (String.intercalate "," fieldNames).data = _
    rw [intercalate_data]
    rw [show (("," : String)).data = [commaChar] from by decide]
  have harr : (serializeCSV (r :: rs')).data =
      joinList [commaChar] (fieldNames.map String.data) ++
        (newlineChar :: joinList [newlineChar]
          (((r :: rs').map csvRow).map String.data)) := by
    rw [serializeCSV_data, hhdrD]
    simp only [List.map_cons, joinList_cons_cons, List.append_assoc,
      List.singleton_append]
  unfold parseCSV
  rw [harr]
  rw [parseRows_succ]
  have hnn : joinList [commaChar] (fieldNames.map String.data) ++
      (newlineChar :: joinList [newlineChar]
        (((r :: rs').map csvRow).map String.data)) ≠ [] := by
    intro h
    have h17 : joinList [commaChar] (fieldNames.map String.data) ≠ [] := by
      decide
    exact h17 (List.append_eq_nil.mp h).1
  rw [if_neg hnn]
  have hflds := parseFields_unquoted fieldNames
    (newlineChar :: joinList [newlineChar]
      (((r :: rs').map csvRow).map String.data))
    ((joinList [commaChar] (fieldNames.map String.data) ++
      (newlineChar :: joinList [newlineChar]
        (((r :: rs').map csvRow).map String.data))).length + 1)
    (by decide) (by decide) (Or.inr rfl)
    (by
      have h17 : fieldNames.length ≤
          (joinList [commaChar] (fieldNames.map String.data)).length := by decide
      simp only [List.length_append]
      omega)
  rw [hflds]
  show (match parseRows
      ((joinList [commaChar] (fieldNames.map String.data) ++
        (newlineChar :: joinList [newlineChar]
          (((r :: rs').map csvRow).map String.data))).length)
      (joinList [newlineChar] (((r :: rs').map csvRow).map String.data)) with
    | Except.error e => (Except.error e : Except String (List (List String)))
    | Except.ok rows => Except.ok (fieldNames :: rows)) =
    Except.ok (fieldNames :: (r :: rs').map values)
  have hrow : ∀ x ∈ ((r :: rs').map csvRow).map String.data, x ≠ [] := by
    intro x hx
    obtain ⟨y, hy, rfl⟩ := List.mem_map.mp hx
    obtain ⟨z, _, rfl⟩ := List.mem_map.mp hy
    rw [csvRow_data]
    exact rowData_ne_nil z
  have h1 := length_le_joinList (((r :: rs').map csvRow).map String.data)
    [newlineChar] hrow
  simp only [List.length_map] at h1
  rw [parseRows_rows (r :: rs') _ (by simp) hq
    (by
      simp only [List.length_append, List.length_cons]
      simp only [List.length_cons] at h1
      omega)]

/-- C9 counterexample: an ingestion run with zero records writes a blob whose
first (and only) line is empty — `Object.keys({})` gives no header — so the
first line is not a header row listing the field names. -/
theorem c9_empty_write_counterexample :
    serializeCSV [] = "" ∧
    ("" : String) ≠ String.intercalate "," fieldNames :=
  ⟨rfl, by decide⟩

/-- C9 (amended): every ingestion write with at least one record produces a
blob whose first line is the comma-joined field names and whose subsequent
lines hold one record each with every value wrapped in double quotes; a
zero-record run still writes, but its blob is a single empty line carrying no
field names. -/
theorem c9_csv_write_format (rs : List ReleaseData) (hne : rs ≠ []) :
    (serializeCSV rs).data =
      (String.intercalate "," fieldNames).data ++ newlineChar ::
        joinList [newlineChar] (rs.map (fun r => joinList [commaChar]
          ((values r).map (fun v => quoteChar :: v.data ++ [quoteChar]))))
    ∧ serializeCSV [] = "" := by
  constructor
  · obtain ⟨r, rs', rfl⟩ := List.exists_cons_of_ne_nil hne
    rw [serializeCSV_data]
    have hfun : (String.data ∘ csvRow) = fun x => joinList [commaChar]
        ((values x).map (fun v => quoteChar :: v.data ++ [quoteChar])) :=
      funext (fun x => csvRow_data x)
    rw [List.map_map, hfun]
    rw [show (csvHeaders (r :: rs')) = String.intercalate "," fieldNames
      from rfl]
    simp only [List.map_cons, joinList_cons_cons, List.append_assoc,
      List.singleton_append]
  · rfl

/-- C9 witness at a one-record run. -/
theorem c9_csv_write_format_witness :
    (([recA] : List ReleaseData) ≠ [])
    ∧ ((serializeCSV [recA]).data =
      (String.intercalate "," fieldNames).data ++ newlineChar ::
        joinList [newlineChar] ([recA].map (fun r => joinList [commaChar]
          ((values r).map (fun v => quoteChar :: v.data ++ [quoteChar]))))
    ∧ serializeCSV [] = "") :=
  ⟨by decide, c9_csv_write_format [recA] (by decide)⟩

/-- C10 counterexample: a record whose name contains a comma round-trips
field-for-field through write-then-parse — the writer wraps every value in
quotes, so a comma inside a value is parsed back intact — contradicting the
claim that reproduction happens only when no field contains a comma. -/
theorem c10_comma_roundtrip_counterexample :
    commaChar ∈ recComma.name.data
    ∧ parseCSV (serializeCSV [recComma]) =
      .ok [fieldNames, values recComma] :=
  ⟨by decide, parseCSV_serializeCSV [recComma] (by decide) (by decide)⟩

/-- C10 (amended): write-then-parse reproduces the original records
field-for-field whenever no field value contains a double quote — commas and
newlines inside values survive because every value is written quoted — and
for a record whose name contains a double quote the parse of the written
blob fails (the unescaped quote is an invalid closing quote), so the records
are not reproduced. -/
theorem c10_csv_roundtrip (rs : List ReleaseData) (hne : rs ≠ [])
    (hq : ∀ r ∈ rs, ∀ v ∈ values r, quoteChar ∉ v.data) :
    parseCSV (serializeCSV rs) = .ok (fieldNames :: rs.map values)
    ∧ quoteChar ∈ recQuote.name.data
    ∧ parseCSV (serializeCSV [recQuote]) = .error "Invalid Closing Quote" :=
  ⟨parseCSV_serializeCSV rs hne hq, by decide, by rfl⟩

/-- C10 witness at a concrete quote-free record set. -/
theorem c10_csv_roundtrip_witness :
    (([recA] : List ReleaseData) ≠ [] ∧
      (∀ r ∈ [recA], ∀ v ∈ values r, quoteChar ∉ v.data))
    ∧ (parseCSV (serializeCSV [recA]) = .ok (fieldNames :: [recA].map values)
      ∧ quoteChar ∈ recQuote.name.data
      ∧ parseCSV (serializeCSV [recQuote]) = .error "Invalid Closing Quote") :=
  ⟨⟨by decide, by decide⟩, c10_csv_roundtrip [recA] (by decide) (by decide)⟩
